import Mathlib

/-!
Shallow embedding of stdio-utils-rs (src/lib.rs): a number parser with
descriptive error context, and a short-circuiting fold that sums a sequence
of line-acquisition results.

Conventions of the embedding:
- Rust `isize` is modelled as `Int` for a 64-bit target, with the range
  [isizeMin, isizeMax]; `isize` addition during the running sum is modelled
  with two's-complement wraparound (`wrap64`), the overflow behavior of the
  release profile.
- Rust `String` / `&str` is modelled as Lean `String` (a list of Unicode
  scalar values, matching Rust `char` boundaries).
- `std::io::Error` is modelled as an opaque payload type `IoError`.
- `std::num::ParseIntError` is modelled by its `kind` field, the only
  observable datum (via derived `Debug` formatting).
- Iterators of the source are finite per the spec, modelled as `List`;
  `Result<T, E>` is `Except E T`.
-/

/-- Model of `std::io::Error`: an opaque payload carried verbatim. -/
structure IoError where
  msg : String
deriving DecidableEq, Repr

/-- The kinds of `std::num::IntErrorKind` reachable from `isize` parsing. -/
inductive IntErrorKind where
  | empty
  | invalidDigit
  | posOverflow
  | negOverflow
deriving DecidableEq, Repr

/-- Model of `std::num::ParseIntError`. -/
structure ParseIntError where
  kind : IntErrorKind
deriving DecidableEq, Repr

/-- `pub struct ParsingError { input: String, error: num::ParseIntError }`. -/
structure ParsingError where
  input : String
  error : ParseIntError
deriving DecidableEq, Repr

/-- `pub enum ApplicationError { InputError(io::Error), ParsingError(ParsingError) }`. -/
inductive ApplicationError where
  | inputError (e : IoError)
  | parsingError (e : ParsingError)
deriving DecidableEq, Repr

/-- Least value of `isize` on a 64-bit target. -/
def isizeMin : Int := -(2 ^ 63)

/-- Greatest value of `isize` on a 64-bit target. -/
def isizeMax : Int := 2 ^ 63 - 1

/-- Two's-complement wraparound into the 64-bit signed range; release-profile
semantics of `isize` addition. -/
def wrap64 (n : Int) : Int := (n + 2 ^ 63) % 2 ^ 64 - 2 ^ 63

/-- Rust `char::is_whitespace`: the Unicode `White_Space` property
(what `str::trim` removes). -/
def rustIsWhitespace (c : Char) : Bool :=
  decide (c.toNat = 0x20 ∨ (0x09 ≤ c.toNat ∧ c.toNat ≤ 0x0D) ∨ c.toNat = 0x85 ∨
    c.toNat = 0xA0 ∨ c.toNat = 0x1680 ∨ (0x2000 ≤ c.toNat ∧ c.toNat ≤ 0x200A) ∨
    c.toNat = 0x2028 ∨ c.toNat = 0x2029 ∨ c.toNat = 0x202F ∨ c.toNat = 0x205F ∨
    c.toNat = 0x3000)

/-- Rust `str::trim`: drop leading and trailing `White_Space` characters. -/
def trimChars (cs : List Char) : List Char :=
  ((cs.dropWhile rustIsWhitespace).reverse.dropWhile rustIsWhitespace).reverse

/-- Rust `char::to_digit(10)`: the value of an ASCII decimal digit. -/
def digitVal (c : Char) : Option Nat :=
  if 48 ≤ c.toNat ∧ c.toNat ≤ 57 then some (c.toNat - 48) else none

/-- Digit loop of `from_str_radix` for a non-negative `isize`: checked
multiply-and-add, failing with `PosOverflow` when the accumulator would
exceed `isizeMax`. -/
def parseDigitsPos : Int → List Char → Except ParseIntError Int
  | acc, [] => Except.ok acc
  | acc, c :: cs =>
    match digitVal c with
    | none => Except.error ⟨IntErrorKind.invalidDigit⟩
    | some d =>
      if isizeMax < acc * 10 + (d : Int) then Except.error ⟨IntErrorKind.posOverflow⟩
      else parseDigitsPos (acc * 10 + (d : Int)) cs

/-- Digit loop of `from_str_radix` for a negative `isize`: checked
multiply-and-subtract, failing with `NegOverflow` when the accumulator would
fall below `isizeMin`. -/
def parseDigitsNeg : Int → List Char → Except ParseIntError Int
  | acc, [] => Except.ok acc
  | acc, c :: cs =>
    match digitVal c with
    | none => Except.error ⟨IntErrorKind.invalidDigit⟩
    | some d =>
      if acc * 10 - (d : Int) < isizeMin then Except.error ⟨IntErrorKind.negOverflow⟩
      else parseDigitsNeg (acc * 10 - (d : Int)) cs

/-- Rust `isize::from_str` (`str::parse::<isize>()`): empty input is `Empty`,
a lone sign is `InvalidDigit`, otherwise the signed digit loop. -/
def parseIsize : List Char → Except ParseIntError Int
  | [] => Except.error ⟨IntErrorKind.empty⟩
  | c :: cs =>
    if c = '+' then
      match cs with
      | [] => Except.error ⟨IntErrorKind.invalidDigit⟩
      | _ :: _ => parseDigitsPos 0 cs
    else if c = '-' then
      match cs with
      | [] => Except.error ⟨IntErrorKind.invalidDigit⟩
      | _ :: _ => parseDigitsNeg 0 cs
    else parseDigitsPos 0 (c :: cs)

/-- `fn as_number(line: &str) -> Result<Number, ParsingError>`: trim, parse,
and on failure wrap the error together with the original untrimmed input. -/
def as_number (line : String) : Except ParsingError Int :=
  match parseIsize (trimChars line.data) with
  | Except.ok n => Except.ok n
  | Except.error err => Except.error ⟨line, err⟩

/-- Derived `Debug` rendering of `ParseIntError` (the `{:?}` in `Display for
ParsingError`). -/
def displayParseIntError (e : ParseIntError) : String :=
  match e.kind with
  | IntErrorKind.empty => "ParseIntError \x7b kind: Empty \x7d"
  | IntErrorKind.invalidDigit => "ParseIntError \x7b kind: InvalidDigit \x7d"
  | IntErrorKind.posOverflow => "ParseIntError \x7b kind: PosOverflow \x7d"
  | IntErrorKind.negOverflow => "ParseIntError \x7b kind: NegOverflow \x7d"

/-- `impl fmt::Display for ParsingError`:
`write!(f, "Could not parse \"{}\" to number: {:?}", self.input, self.error)`. -/
def displayParsingError (e : ParsingError) : String :=
  "Could not parse \"" ++ e.input ++ "\" to number: " ++ displayParseIntError e.error

/-- The fold inside `pub fn sum`: `lines.map(|line| Ok(as_number(&line?)?)).sum()`.
`Sum for Result` short-circuits on the first error; the running `isize`
addition wraps (release profile). -/
def sumLoop : Int → List (Except IoError String) → Except ApplicationError Int
  | acc, [] => Except.ok acc
  | _, Except.error e :: _ => Except.error (ApplicationError.inputError e)
  | acc, Except.ok line :: rest =>
    match as_number line with
    | Except.error pe => Except.error (ApplicationError.parsingError pe)
    | Except.ok n => sumLoop (wrap64 (acc + n)) rest

/-- `pub fn sum<T>(lines: T) -> Result<Number, ApplicationError>`. -/
def sum (lines : List (Except IoError String)) : Except ApplicationError Int :=
  sumLoop 0 lines

/-- `pub fn sum_strings`: `sum(strings.map(|s| Ok(String::from(s))))`. -/
def sum_strings (strings : List String) : Except ApplicationError Int :=
  sum (strings.map Except.ok)

/-- Number of items `sum` pulls from its source before returning: mirrors
`sumLoop`, counting one per item examined (an instrumented source). -/
def sumPulls : List (Except IoError String) → Nat
  | [] => 0
  | Except.error _ :: _ => 1
  | Except.ok line :: rest =>
    match as_number line with
    | Except.error _ => 1
    | Except.ok _ => 1 + sumPulls rest

/-- ASCII decimal digit test (domain of `digitVal`). -/
def isDigit (c : Char) : Bool := decide (48 ≤ c.toNat ∧ c.toNat ≤ 57)

/-- Value denoted by a digit string, accumulated most-significant first. -/
def natFold : Nat → List Char → Nat
  | acc, [] => acc
  | acc, c :: cs => natFold (acc * 10 + (c.toNat - 48)) cs

/-- Mathematical value of a decimal digit string. -/
def digitsValNat (ds : List Char) : Nat := natFold 0 ds

/-- Specification-side grammar: `cs` is an optionally signed decimal numeral
(optional leading plus or minus sign, one or more decimal digits) denoting the
integer `v`. -/
def grammarSigned (cs : List Char) (v : Int) : Prop :=
  ∃ ds : List Char, ds ≠ [] ∧ (∀ c ∈ ds, isDigit c = true) ∧
    ((cs = ds ∧ v = (digitsValNat ds : Int)) ∨
     (cs = '+' :: ds ∧ v = (digitsValNat ds : Int)) ∨
     (cs = '-' :: ds ∧ v = -(digitsValNat ds : Int)))

lemma dropWhile_append_all (p : Char → Bool) (w l : List Char)
    (hw : ∀ c ∈ w, p c = true) : (w ++ l).dropWhile p = l.dropWhile p := by
  induction w with
  | nil => rfl
  | cons a t ih =>
    have ha : p a = true := hw a (List.mem_cons_self a t)
    simp only [List.cons_append, List.dropWhile_cons, ha, if_true]
    exact ih fun c hc => hw c (List.mem_cons_of_mem a hc)

lemma dropWhile_all_nil (p : Char → Bool) (w : List Char)
    (hw : ∀ c ∈ w, p c = true) : w.dropWhile p = [] :=
  List.dropWhile_eq_nil_iff.mpr hw

lemma dropWhile_cons_of_neg (p : Char → Bool) (a : Char) (l : List Char)
    (h : p a = false) : (a :: l).dropWhile p = a :: l := by
  simp [List.dropWhile_cons, h]

lemma trimChars_all_ws (w : List Char) (hw : ∀ c ∈ w, rustIsWhitespace c = true) :
    trimChars w = [] := by
  unfold trimChars
  rw [dropWhile_all_nil _ w hw]
  rfl

lemma trimChars_sandwich (w1 w2 core t1 t2 : List Char) (a b : Char)
    (h1 : ∀ c ∈ w1, rustIsWhitespace c = true)
    (h2 : ∀ c ∈ w2, rustIsWhitespace c = true)
    (hc1 : core = a :: t1) (ha : rustIsWhitespace a = false)
    (hc2 : core = t2 ++ [b]) (hb : rustIsWhitespace b = false) :
    trimChars (w1 ++ core ++ w2) = core := by
  unfold trimChars
  rw [List.append_assoc, dropWhile_append_all _ w1 _ h1, hc1, List.cons_append,
    dropWhile_cons_of_neg _ _ _ ha, ← List.cons_append, ← hc1, List.reverse_append, hc2]
  have : (t2 ++ [b]).reverse = b :: t2.reverse := by simp
  rw [this, dropWhile_append_all _ w2.reverse _ (fun c hc => h2 c (List.mem_reverse.mp hc)),
    dropWhile_cons_of_neg _ _ _ hb, ← this, List.reverse_reverse]

lemma digitVal_of_isDigit (c : Char) (h : isDigit c = true) :
    digitVal c = some (c.toNat - 48) := by
  simp only [isDigit, decide_eq_true_eq] at h
  simp [digitVal, h]

lemma le_toNat_of_isDigit (c : Char) (h : isDigit c = true) : 48 ≤ c.toNat := by
  simp only [isDigit, decide_eq_true_eq] at h
  exact h.1

lemma natFold_le (ds : List Char) : ∀ acc : Nat, acc ≤ natFold acc ds := by
  induction ds with
  | nil => intro acc; exact Nat.le_refl acc
  | cons c cs ih =>
    intro acc
    calc acc ≤ acc * 10 + (c.toNat - 48) := by omega
    _ ≤ natFold (acc * 10 + (c.toNat - 48)) cs := ih _
    _ = natFold acc (c :: cs) := rfl

lemma parseDigitsPos_ok (ds : List Char) : ∀ acc : Nat,
    (∀ c ∈ ds, isDigit c = true) → ((natFold acc ds : Int) ≤ isizeMax) →
    parseDigitsPos (acc : Int) ds = Except.ok ((natFold acc ds : Int)) := by
  induction ds with
  | nil => intro acc _ _; rfl
  | cons c cs ih =>
    intro acc hd hle
    have hc : isDigit c = true := hd c (List.mem_cons_self c cs)
    have h48 : 48 ≤ c.toNat := le_toNat_of_isDigit c hc
    have hcast : (acc : Int) * 10 + ((c.toNat - 48 : Nat) : Int) =
        ((acc * 10 + (c.toNat - 48) : Nat) : Int) := by push_cast; ring
    have hrest : natFold acc (c :: cs) = natFold (acc * 10 + (c.toNat - 48)) cs := rfl
    have hstep : ((acc * 10 + (c.toNat - 48) : Nat) : Int) ≤ isizeMax := by
      refine le_trans ?_ (hrest ▸ hle)
      exact_mod_cast natFold_le cs _
    rw [parseDigitsPos, digitVal_of_isDigit c hc]
    simp only [hcast, hrest]
    rw [if_neg (by omega)]
    exact ih _ (fun x hx => hd x (List.mem_cons_of_mem c hx)) (hrest ▸ hle)

lemma parseDigitsNeg_ok (ds : List Char) : ∀ acc : Nat,
    (∀ c ∈ ds, isDigit c = true) → (isizeMin ≤ -((natFold acc ds : Nat) : Int)) →
    parseDigitsNeg (-(acc : Int)) ds = Except.ok (-((natFold acc ds : Nat) : Int)) := by
  induction ds with
  | nil => intro acc _ _; rfl
  | cons c cs ih =>
    intro acc hd hle
    have hc : isDigit c = true := hd c (List.mem_cons_self c cs)
    have h48 : 48 ≤ c.toNat := le_toNat_of_isDigit c hc
    have hcast : -(acc : Int) * 10 - ((c.toNat - 48 : Nat) : Int) =
        -((acc * 10 + (c.toNat - 48) : Nat) : Int) := by push_cast; ring
    have hrest : natFold acc (c :: cs) = natFold (acc * 10 + (c.toNat - 48)) cs := rfl
    have hstep : isizeMin ≤ -((acc * 10 + (c.toNat - 48) : Nat) : Int) := by
      refine le_trans (hrest ▸ hle) ?_
      simp only [neg_le_neg_iff]
      exact_mod_cast natFold_le cs _
    rw [parseDigitsNeg, digitVal_of_isDigit c hc]
    simp only [hcast, hrest]
    rw [if_neg (by omega)]
    exact ih _ (fun x hx => hd x (List.mem_cons_of_mem c hx)) (hrest ▸ hle)

lemma isDigit_ne_plus (c : Char) (h : isDigit c = true) : ¬(c = '+') := by
  intro he; subst he; exact absurd h (by decide)

lemma isDigit_ne_minus (c : Char) (h : isDigit c = true) : ¬(c = '-') := by
  intro he; subst he; exact absurd h (by decide)

lemma parseIsize_grammar (core : List Char) (v : Int) (hg : grammarSigned core v)
    (hlo : isizeMin ≤ v) (hhi : v ≤ isizeMax) : parseIsize core = Except.ok v := by
  obtain ⟨ds, hne, hd, hcases⟩ := hg
  obtain ⟨d0, rest, hds⟩ := List.exists_cons_of_ne_nil hne
  rcases hcases with ⟨hcs, hv⟩ | ⟨hcs, hv⟩ | ⟨hcs, hv⟩
  · subst hcs
    subst hds
    have hd0 : isDigit d0 = true := hd d0 (List.mem_cons_self d0 rest)
    simp only [parseIsize.eq_def]
    rw [if_neg (isDigit_ne_plus d0 hd0), if_neg (isDigit_ne_minus d0 hd0)]
    have hpp := parseDigitsPos_ok (d0 :: rest) 0 hd (by exact hv ▸ hhi)
    rw [Nat.cast_zero] at hpp
    rw [hpp]
    exact congrArg Except.ok hv.symm
  · subst hcs
    subst hds
    show parseDigitsPos 0 (d0 :: rest) = Except.ok v
    have hpp := parseDigitsPos_ok (d0 :: rest) 0 hd (by exact hv ▸ hhi)
    rw [Nat.cast_zero] at hpp
    rw [hpp]
    exact congrArg Except.ok hv.symm
  · subst hcs
    subst hds
    show parseDigitsNeg 0 (d0 :: rest) = Except.ok v
    have hpp := parseDigitsNeg_ok (d0 :: rest) 0 hd (by exact hv ▸ hlo)
    rw [Nat.cast_zero, neg_zero] at hpp
    rw [hpp]
    exact congrArg Except.ok hv.symm

lemma wrap64_eq_of_mem (n : Int) (h1 : isizeMin ≤ n) (h2 : n ≤ isizeMax) : wrap64 n = n := by
  unfold wrap64 isizeMin isizeMax at *
  rw [Int.emod_eq_of_lt (by omega) (by omega)]
  omega

lemma wrap64_add_left (a b : Int) : wrap64 (wrap64 a + b) = wrap64 (a + b) := by
  unfold wrap64
  omega

lemma sumLoop_map_ok (xs : List String) (vals : List Int)
    (h : List.Forall₂ (fun s n => as_number s = Except.ok n) xs vals) :
    ∀ acc, sumLoop acc (xs.map Except.ok) =
      Except.ok (vals.foldl (fun a n => wrap64 (a + n)) acc) := by
  induction h with
  | nil => intro acc; rfl
  | cons hsn _ ih =>
    intro acc
    rw [List.map_cons, sumLoop, hsn, List.foldl_cons]
    exact ih _

lemma foldl_wrap (vals : List Int) : ∀ acc, vals ≠ [] →
    vals.foldl (fun a n => wrap64 (a + n)) acc = wrap64 (acc + vals.sum) := by
  induction vals with
  | nil => intro acc h; exact absurd rfl h
  | cons n ns ih =>
    intro acc _
    rw [List.foldl_cons]
    cases ns with
    | nil => simp [wrap64]
    | cons m ms =>
      rw [ih _ (by simp), wrap64_add_left]
      congr 1
      simp only [List.sum_cons]
      ring

lemma sumLoop_acq_error (e : IoError) (rest : List (Except IoError String)) :
    ∀ (good : List (Except IoError String)) (acc : Int),
    (∀ x ∈ good, ∃ s n, x = Except.ok s ∧ as_number s = Except.ok n) →
    sumLoop acc (good ++ Except.error e :: rest) =
      Except.error (ApplicationError.inputError e) := by
  intro good
  induction good with
  | nil => intro acc _; rfl
  | cons x g ih =>
    intro acc hgood
    obtain ⟨s, n, hx, hs⟩ := hgood x (List.mem_cons_self x g)
    subst hx
    rw [List.cons_append, sumLoop, hs]
    exact ih _ fun y hy => hgood y (List.mem_cons_of_mem _ hy)

lemma sumLoop_parse_error (s : String) (pe : ParsingError) (hs : as_number s = Except.error pe)
    (rest : List (Except IoError String)) :
    ∀ (good : List (Except IoError String)) (acc : Int),
    (∀ x ∈ good, ∃ s n, x = Except.ok s ∧ as_number s = Except.ok n) →
    sumLoop acc (good ++ Except.ok s :: rest) =
      Except.error (ApplicationError.parsingError pe) := by
  intro good
  induction good with
  | nil =>
    intro acc _
    rw [List.nil_append, sumLoop, hs]
  | cons x g ih =>
    intro acc hgood
    obtain ⟨t, n, hx, ht⟩ := hgood x (List.mem_cons_self x g)
    subst hx
    rw [List.cons_append, sumLoop, ht]
    exact ih _ fun y hy => hgood y (List.mem_cons_of_mem _ hy)

lemma sumPulls_first_failure (bad : Except IoError String)
    (hbad : (∃ e, bad = Except.error e) ∨
      (∃ s pe, bad = Except.ok s ∧ as_number s = Except.error pe))
    (rest : List (Except IoError String)) :
    ∀ good : List (Except IoError String),
    (∀ x ∈ good, ∃ s n, x = Except.ok s ∧ as_number s = Except.ok n) →
    sumPulls (good ++ bad :: rest) = good.length + 1 := by
  intro good
  induction good with
  | nil =>
    intro _
    rcases hbad with ⟨e, he⟩ | ⟨s, pe, hb, hp⟩
    · subst he; rfl
    · subst hb
      rw [List.nil_append, sumPulls, hp]
      rfl
  | cons x g ih =>
    intro hgood
    obtain ⟨s, n, hx, hs⟩ := hgood x (List.mem_cons_self x g)
    subst hx
    rw [List.cons_append, sumPulls, hs, ih fun y hy => hgood y (List.mem_cons_of_mem _ hy)]
    simp [List.length_cons]
    omega

lemma sumLoop_map_ok_no_input_error (l : List String) :
    ∀ (acc : Int) (e : ApplicationError),
    sumLoop acc (l.map Except.ok) = Except.error e →
    ∃ pe, e = ApplicationError.parsingError pe := by
  induction l with
  | nil => intro acc e h; exact absurd h (by simp [sumLoop])
  | cons s t ih =>
    intro acc e h
    rw [List.map_cons, sumLoop] at h
    cases hs : as_number s with
    | error pe =>
      rw [hs] at h
      exact ⟨pe, (Except.error.injEq .. ▸ h).symm⟩
    | ok n =>
      rw [hs] at h
      exact ih _ _ h

lemma isDigit_not_ws (c : Char) (h : isDigit c = true) : rustIsWhitespace c = false := by
  simp only [isDigit, decide_eq_true_eq] at h
  simp only [rustIsWhitespace, decide_eq_false_iff_not]
  omega

/-- C1 (counterexample): two lines that are each a valid in-range numeral, yet
the sum returned is not the mathematical sum of their parsed values (the
running `isize` addition wrapped around). -/
theorem C1_counterexample :
    as_number "9223372036854775807" = Except.ok 9223372036854775807 ∧
    as_number "1" = Except.ok 1 ∧
    sum [Except.ok "9223372036854775807", Except.ok "1"] ≠
      Except.ok (9223372036854775807 + 1) := by
  refine ⟨rfl, rfl, ?_⟩
  have hs : sum [Except.ok "9223372036854775807", Except.ok "1"] =
      Except.ok (-9223372036854775808) := rfl
  rw [hs]
  intro h
  injection h with h2
  omega

/-- C1 (amended): for every finite sequence of successfully acquired lines
whose texts parse to the integers `vals`, provided the mathematical sum of
`vals` lies within the `isize` range, `sum` returns `Ok` of that sum; the
empty sequence yields 0 and a singleton yields its parsed value as special
cases. -/
theorem C1_sum_of_valid_lines (xs : List String) (vals : List Int)
    (h : List.Forall₂ (fun s n => as_number s = Except.ok n) xs vals)
    (hlo : isizeMin ≤ vals.sum) (hhi : vals.sum ≤ isizeMax) :
    sum (xs.map Except.ok) = Except.ok vals.sum := by
  rcases h with _ | @⟨s, n, t, ns, hsn, htail⟩
  · rfl
  · rw [sum, sumLoop_map_ok _ _ (List.Forall₂.cons hsn htail), foldl_wrap _ _ (by simp),
      zero_add, wrap64_eq_of_mem _ hlo hhi]

/-- Witness for C1: summation over the lines "39" and "30" returns 69. -/
theorem C1_sum_of_valid_lines_witness :
    sum [Except.ok "39", Except.ok "30"] = Except.ok 69 :=
  C1_sum_of_valid_lines ["39", "30"] [39, 30]
    (List.Forall₂.cons rfl (List.Forall₂.cons rfl List.Forall₂.nil)) (by decide) (by decide)

/-- C2: for every string whose trimmed text matches the signed decimal
grammar and denotes a value within the `isize` range, `as_number` succeeds
with that value. -/
theorem C2_as_number_valid (s : String) (v : Int)
    (hg : grammarSigned (trimChars s.data) v)
    (hlo : isizeMin ≤ v) (hhi : v ≤ isizeMax) :
    as_number s = Except.ok v := by
  unfold as_number
  rw [parseIsize_grammar _ _ hg hlo hhi]

/-- Witness for C2: parsing " +42 " succeeds with 42. -/
theorem C2_as_number_valid_witness : as_number " +42 " = Except.ok 42 :=
  C2_as_number_valid " +42 " 42
    ⟨['4', '2'], by decide, by decide, Or.inr (Or.inl ⟨by decide, by decide⟩)⟩
    (by decide) (by decide)

/-- C3: when the first non-summable item of the sequence is an acquisition
failure, `sum` fails with the `InputError` variant wrapping that failure;
when it is a line whose text fails to parse, `sum` fails with the
`ParsingError` variant wrapping that parsing error. -/
theorem C3_first_failure_variant (good rest : List (Except IoError String))
    (hgood : ∀ x ∈ good, ∃ s n, x = Except.ok s ∧ as_number s = Except.ok n) :
    (∀ e : IoError, sum (good ++ Except.error e :: rest) =
        Except.error (ApplicationError.inputError e)) ∧
    (∀ (s : String) (pe : ParsingError), as_number s = Except.error pe →
        sum (good ++ Except.ok s :: rest) =
          Except.error (ApplicationError.parsingError pe)) := by
  constructor
  · intro e
    exact sumLoop_acq_error e rest good 0 hgood
  · intro s pe hs
    exact sumLoop_parse_error s pe hs rest good 0 hgood

/-- Witness for C3: an acquisition failure after a good line yields the
`InputError` variant; an unparseable line after a good line yields the
`ParsingError` variant. -/
theorem C3_first_failure_variant_witness :
    sum [Except.ok "1", Except.error ⟨"boom"⟩, Except.ok "2"] =
      Except.error (ApplicationError.inputError ⟨"boom"⟩) ∧
    sum [Except.ok "1", Except.ok "abc", Except.ok "2"] =
      Except.error (ApplicationError.parsingError ⟨"abc", ⟨IntErrorKind.invalidDigit⟩⟩) := by
  have h := C3_first_failure_variant [Except.ok "1"] [Except.ok "2"]
    (by intro x hx
        simp only [List.mem_singleton] at hx
        exact ⟨"1", 1, hx, rfl⟩)
  exact ⟨h.1 ⟨"boom"⟩, h.2 "abc" ⟨"abc", ⟨IntErrorKind.invalidDigit⟩⟩ rfl⟩

/-- C4: on a sequence whose first failing item sits after `good.length` good
lines, exactly `good.length + 1` items are pulled (none beyond the offending
one); in particular on ["abc", "42"] only the first item is ever pulled. -/
theorem C4_short_circuit_pulls (good rest : List (Except IoError String))
    (bad : Except IoError String)
    (hgood : ∀ x ∈ good, ∃ s n, x = Except.ok s ∧ as_number s = Except.ok n)
    (hbad : (∃ e, bad = Except.error e) ∨
      (∃ s pe, bad = Except.ok s ∧ as_number s = Except.error pe)) :
    sumPulls (good ++ bad :: rest) = good.length + 1 ∧
    sumPulls [Except.ok "abc", Except.ok "42"] = 1 :=
  ⟨sumPulls_first_failure bad hbad rest good hgood, rfl⟩

/-- Witness for C4: with one good line before the offending one, two items
are pulled; on ["abc", "42"] a single item is pulled. -/
theorem C4_short_circuit_pulls_witness :
    sumPulls [Except.ok "1", Except.ok "abc", Except.ok "2"] = 2 ∧
    sumPulls [Except.ok "abc", Except.ok "42"] = 1 :=
  C4_short_circuit_pulls [Except.ok "1"] [Except.ok "2"] (Except.ok "abc")
    (by intro x hx
        simp only [List.mem_singleton] at hx
        exact ⟨"1", 1, hx, rfl⟩)
    (Or.inr ⟨"abc", ⟨"abc", ⟨IntErrorKind.invalidDigit⟩⟩, rfl, rfl⟩)

/-- C5: evaluation of the running sum at an overflowing input. Both lines are
valid in-range numerals, yet `sum` silently returns the two's-complement
wraparound of their mathematical sum instead of applying any explicit
overflow policy. -/
theorem C5_wraparound_eval :
    as_number "9223372036854775807" = Except.ok isizeMax ∧
    as_number "1" = Except.ok 1 ∧
    sum [Except.ok "9223372036854775807", Except.ok "1"] = Except.ok isizeMin ∧
    isizeMin = wrap64 (isizeMax + 1) ∧
    ¬ isizeMin = isizeMax + 1 :=
  ⟨rfl, rfl, rfl, by decide, by decide⟩

/-- C6: whenever `as_number` fails, the resulting `ParsingError` stores the
original untrimmed input verbatim, and its `Display` rendering is the
original input text surrounded by a description of the underlying
conversion failure. -/
theorem C6_error_preserves_input (s : String) (pe : ParsingError)
    (h : as_number s = Except.error pe) :
    pe.input = s ∧
    displayParsingError pe =
      "Could not parse \"" ++ s ++ "\" to number: " ++ displayParseIntError pe.error := by
  unfold as_number at h
  split at h
  · cases h
  · injection h with h2
    subst h2
    exact ⟨rfl, rfl⟩

/-- Witness for C6: the failure on "abc" stores "abc" and renders it
verbatim inside the message. -/
theorem C6_error_preserves_input_witness :
    ParsingError.input ⟨"abc", ⟨IntErrorKind.invalidDigit⟩⟩ = "abc" ∧
    displayParsingError ⟨"abc", ⟨IntErrorKind.invalidDigit⟩⟩ =
      "Could not parse \"" ++ "abc" ++ "\" to number: " ++
        displayParseIntError (ParsingError.mk "abc" ⟨IntErrorKind.invalidDigit⟩).error :=
  C6_error_preserves_input "abc" ⟨"abc", ⟨IntErrorKind.invalidDigit⟩⟩ rfl

/-- C7: `sum_strings` is `sum` applied to the fragments adapted into
successful line items, and consequently it can only fail with the
`ParsingError` variant, never the `InputError` variant. -/
theorem C7_sum_strings_delegates (strings : List String) :
    sum_strings strings = sum (strings.map Except.ok) ∧
    ∀ e : ApplicationError, sum_strings strings = Except.error e →
      ∃ pe, e = ApplicationError.parsingError pe := by
  refine ⟨rfl, ?_⟩
  intro e h
  exact sumLoop_map_ok_no_input_error strings 0 e h

/-- Witness for C7: on the fragment list [""] the delegation equation holds
and the resulting error is of the `ParsingError` variant. -/
theorem C7_sum_strings_delegates_witness :
    sum_strings [""] = sum [Except.ok ""] ∧
    ∃ pe, ApplicationError.parsingError ⟨"", ⟨IntErrorKind.empty⟩⟩ =
      ApplicationError.parsingError pe :=
  ⟨(C7_sum_strings_delegates [""]).1,
    (C7_sum_strings_delegates [""]).2
      (ApplicationError.parsingError ⟨"", ⟨IntErrorKind.empty⟩⟩) rfl⟩

/-- C8: parsing the empty string fails (with the `Empty` kind), and the
displayed message contains no hardcoded placeholder character "$". -/
theorem C8_empty_parse_fails :
    as_number "" = Except.error ⟨"", ⟨IntErrorKind.empty⟩⟩ ∧
    ¬ ('$' ∈ (displayParsingError ⟨"", ⟨IntErrorKind.empty⟩⟩).data) :=
  ⟨rfl, by decide⟩

/-- C9: trimming removes all Unicode `White_Space` characters, not only
ASCII ones: a valid in-range numeral surrounded by arbitrary Unicode
whitespace parses to its value. -/
theorem C9_unicode_whitespace_trim (w1 w2 core : List Char) (v : Int)
    (h1 : ∀ c ∈ w1, rustIsWhitespace c = true)
    (h2 : ∀ c ∈ w2, rustIsWhitespace c = true)
    (hg : grammarSigned core v) (hlo : isizeMin ≤ v) (hhi : v ≤ isizeMax) :
    as_number (String.mk (w1 ++ core ++ w2)) = Except.ok v := by
  have hg' := hg
  obtain ⟨ds, hne, hd, hcases⟩ := hg
  obtain ⟨d0, rest, hds⟩ := List.exists_cons_of_ne_nil hne
  obtain ⟨init, dl, hconc⟩ : ∃ init dl, ds = init ++ [dl] := by
    rcases List.eq_nil_or_concat ds with h | ⟨init, dl, h⟩
    · exact absurd h hne
    · exact ⟨init, dl, by rw [h, List.concat_eq_append]⟩
  have hdl : isDigit dl = true :=
    hd dl (by rw [hconc]; exact List.mem_append_right _ (List.mem_singleton_self dl))
  have hdlws : rustIsWhitespace dl = false := isDigit_not_ws dl hdl
  have hd0 : isDigit d0 = true := hd d0 (hds ▸ List.mem_cons_self d0 rest)
  have htrim : trimChars (w1 ++ core ++ w2) = core := by
    rcases hcases with ⟨hcs, _⟩ | ⟨hcs, _⟩ | ⟨hcs, _⟩
    · exact trimChars_sandwich w1 w2 core rest init d0 dl h1 h2 (hcs.trans hds)
        (isDigit_not_ws d0 hd0) (hcs.trans hconc) hdlws
    · exact trimChars_sandwich w1 w2 core ds ('+' :: init) '+' dl h1 h2 hcs (by decide)
        (by rw [hcs, hconc, List.cons_append]) hdlws
    · exact trimChars_sandwich w1 w2 core ds ('-' :: init) '-' dl h1 h2 hcs (by decide)
        (by rw [hcs, hconc, List.cons_append]) hdlws
  have hdata : (String.mk (w1 ++ core ++ w2)).data = w1 ++ core ++ w2 := rfl
  unfold as_number
  rw [hdata, htrim, parseIsize_grammar core v hg' hlo hhi]

/-- Witness for C9: "42" surrounded by a no-break space (U+00A0) and an em
space (U+2003) parses to 42. -/
theorem C9_unicode_whitespace_trim_witness :
    as_number (String.mk [' ', '4', '2', ' ']) = Except.ok 42 :=
  C9_unicode_whitespace_trim [' '] [' '] ['4', '2'] 42
    (by decide) (by decide)
    ⟨['4', '2'], by decide, by decide, Or.inl ⟨rfl, by decide⟩⟩ (by decide) (by decide)

/-- C10: on a non-empty all-whitespace input, `as_number` fails with the
`Empty` kind and the stored input is the original whitespace-only string,
not the trimmed empty string. -/
theorem C10_whitespace_only_fails (s : String) (h1 : s.data ≠ [])
    (h2 : ∀ c ∈ s.data, rustIsWhitespace c = true) :
    as_number s = Except.error ⟨s, ⟨IntErrorKind.empty⟩⟩ := by
  unfold as_number
  rw [trimChars_all_ws s.data h2]
  rfl

/-- Witness for C10: a no-break space followed by an ASCII space fails with
the original two-character string stored verbatim. -/
theorem C10_whitespace_only_fails_witness :
    as_number "  " = Except.error ⟨"  ", ⟨IntErrorKind.empty⟩⟩ :=
  C10_whitespace_only_fails "  " (by decide) (by decide)
